import Mathlib

set_option maxRecDepth 4000

/-!
Shallow embedding of the `notch` CHIP-8 virtual machine
(`src/cpu.rs` and `src/interconnect.rs`) and proofs about it.

Conventions of the embedding:

* Machine integers (`u8`, `u16`, `usize`) are embedded as `Nat`, with an
  explicit `% 2^w` exactly where the Rust code can overflow/wrap
  (`pc += 2` and `sp += 1`).
* The fixed-size byte buffers — `ram` (a `Vec<u8>` created with 4096
  entries and never resized, `RAM_SIZE`), `display` (2048 entries,
  `DISPLAY_SIZE = 64 * 32`, never resized) — are embedded as functions
  `Nat → Nat` together with the runtime bounds checks Rust performs
  against their static lengths 4096 and 2048.  An indexed write is
  `writeMem`.  The 16-entry buffers (`stack : [u16; 16]` and the sixteen
  registers) are embedded as 16-element lists.
* A Rust `panic!` (including the implicit panic of an out-of-bounds index)
  aborts the process.  It is embedded as the `Outcome.panicked` result,
  which records which panic fired and the machine state when the failing
  operation started.  Since the process dies, nothing after a panic is
  observable.
* The sixteen named register fields `v0`..`vf` of `struct Cpu`, together
  with `get_reg`/`set_reg`'s sixteen-way dispatch on a 4-bit index, are
  embedded as a 16-element list indexed by that nibble.  The decoder only
  ever produces indices `< 16`, so the `panic!` arms of `get_reg`/`set_reg`
  are unreachable and are not modelled.
* `Cpu::run`'s unbounded `loop` is embedded with explicit fuel: consuming
  all fuel yields `Outcome.fuelOut` with the state at the loop boundary
  (the machine is still running).  The recursive re-entry of `run` inside
  the `2NNN` arm (cpu.rs line 136) is embedded by the `Outcome.called`
  result, which `run` answers by running a nested loop; if that nested
  loop ever ended, the `panic!("unhandled")` at cpu.rs line 138 would fire.
-/

/-- The distinct panics the two source files can raise. -/
inductive Err where
  /-- cpu.rs: `panic!("Found unknown opcode at instruction: ...")` -/
  | unknownOpcode (instr : Nat)
  /-- cpu.rs: `panic!("Found unknown identifier at instruction: ...")` -/
  | unknownIdentifier (instr : Nat)
  /-- cpu.rs: `panic!("unhandled")` after the nested `run` of a call returns -/
  | unhandledCall
  /-- cpu.rs: index out of bounds on `self.stack[self.sp as usize]` -/
  | oobStackWrite
  /-- cpu.rs: index out of bounds reading sprite bytes from ram -/
  | oobRamRead
  /-- cpu.rs: index out of bounds writing BCD digits to ram -/
  | oobRamWrite
  /-- interconnect.rs: index out of bounds on `self.display[index]` -/
  | oobDisplay
  /-- interconnect.rs: `read_word` slicing/reading past the end of ram -/
  | oobFetch
deriving DecidableEq

/-- The machine state: `struct Cpu` (cpu.rs lines 6-44) together with the
emulation-relevant fields of `struct Interconnect` (interconnect.rs lines
30-48).  The SDL handles carry no emulation state and are dropped. -/
structure Machine where
  /-- Program counter (u16). -/
  pc : Nat
  /-- The function call stack, `[u16; 16]`. -/
  stack : List Nat
  /-- Stack pointer (u8). -/
  sp : Nat
  /-- General purpose registers `v0`-`vf`, sixteen u8 values. -/
  regs : List Nat
  /-- Address register "I" (u16). -/
  i : Nat
  /-- Delay timer register (u8). -/
  dt : Nat
  /-- Sound timer register (u8). -/
  st : Nat
  /-- Interconnect: halt flag read by nobody in cpu.rs. -/
  halt : Bool
  /-- Interconnect: the 4096 ram bytes (`RAM_SIZE`), as a function. -/
  ram : Nat → Nat
  /-- Interconnect: the 64x32 display buffer (one byte per pixel,
  `DISPLAY_SIZE` = 2048 entries), as a function. -/
  display : Nat → Nat

/-- Result of executing one instruction or running the loop. -/
inductive Outcome where
  /-- `execute_instruction` returned `false`: continue with the next fetch. -/
  | next (m : Machine)
  /-- `execute_instruction` returned `true`, or `run`'s loop broke. -/
  | brk (m : Machine)
  /-- The `2NNN` arm re-entered `run` recursively with the pushed state. -/
  | called (m : Machine)
  /-- A `panic!` fired: the process terminates.  `m` is the machine state
  when the failing operation started. -/
  | panicked (e : Err) (m : Machine)
  /-- Fuel ran out at a loop-iteration boundary; `m` is still running. -/
  | fuelOut (m : Machine)

/-- The machine carried by an `Outcome`. -/
def stateOf : Outcome → Machine
  | .next m => m
  | .brk m => m
  | .called m => m
  | .panicked _ m => m
  | .fuelOut m => m

/-- Does the outcome record a fired panic? -/
def isPanicked : Outcome → Bool
  | .panicked _ _ => true
  | _ => false

/-- Is the outcome an out-of-fuel (still running) loop boundary? -/
def isFuelOut : Outcome → Bool
  | .fuelOut _ => true
  | _ => false

/-- An indexed write `buf[a] = v` to a byte buffer embedded as a function
(the bounds check of the write is performed by the caller, mirroring the
Rust indexing). -/
def writeMem (f : Nat → Nat) (a v : Nat) : Nat → Nat :=
  fun b => if b = a then v else f b

/-- `let opcode = (instr >> 12) as u8` (cpu.rs line 69). -/
def opcodeOf (instr : Nat) : Nat := instr >>> 12

/-- `let regx = ((instr << 4) >> 12) as u8` — second nibble.  The `u16`
shift truncates to 16 bits, hence the `% 65536`. -/
def regXOf (instr : Nat) : Nat := ((instr <<< 4) % 65536) >>> 12

/-- `let regy = ((instr << 8) >> 12) as u8` — third nibble. -/
def regYOf (instr : Nat) : Nat := ((instr <<< 8) % 65536) >>> 12

/-- `let byte = ((instr << 8) >> 8) as u8` — low byte. -/
def byteOf (instr : Nat) : Nat := ((instr <<< 8) % 65536) >>> 8

/-- `let addr = ((instr << 4) >> 4) as u16` — low 12 bits. -/
def addrOf (instr : Nat) : Nat := ((instr <<< 4) % 65536) >>> 4

/-- `let nibble = ((instr << 12) >> 12) as usize` — low nibble. -/
def nibbleOf (instr : Nat) : Nat := ((instr <<< 12) % 65536) >>> 12

/-- `Cpu::get_reg` (cpu.rs lines 194-216): the sixteen-way match embedded
as list indexing; decode only produces indices `< 16`. -/
def getReg (m : Machine) (r : Nat) : Nat := m.regs.getD r 0

/-- `Cpu::set_reg` (cpu.rs lines 219-241). -/
def setReg (m : Machine) (r : Nat) (b : Nat) : Machine :=
  { m with regs := m.regs.set r b }

/-- `self.pc += INSTRUCTION_SIZE` (cpu.rs line 188); `pc` is a u16. -/
def advancePC (m : Machine) : Machine := { m with pc := (m.pc + 2) % 65536 }

/-- `Interconnect::read_word` (interconnect.rs lines 107-109):
`BigEndian::read_u16(&self.ram[addr..])`, big-endian.  The read panics
when fewer than two of the `RAM_SIZE = 4096` bytes remain past `addr`. -/
def readWord (m : Machine) : Option Nat :=
  if m.pc + 1 < 4096 then
    some (m.ram m.pc * 256 + m.ram (m.pc + 1))
  else
    none

/-- The sprite-byte read loop of the `DXYN` arm (cpu.rs lines 110-113):
`sprite[i] = self.interconnect.ram[self.i as usize + i]`, panicking at the
first read past the 4096 ram bytes. -/
def readSprite (ram : Nat → Nat) (base : Nat) : Nat → Option (List Nat)
  | 0 => some []
  | Nat.succ k =>
    if base < 4096 then
      match readSprite ram (base + 1) k with
      | some rest => some (ram base :: rest)
      | none => none
    else
      none

/-- The display index of sprite row `i`, bit `j` computed by
`Interconnect::draw` (interconnect.rs lines 120, 126, 138-150):
`offset = y*DISPLAY_WIDTH + DISPLAY_WIDTH*i`, `pos = x + j`, and
`index = offset + pos - DISPLAY_WIDTH` when `pos > DISPLAY_WIDTH` (= 64),
`offset + pos` otherwise. -/
def targetIndex (x y i j : Nat) : Nat :=
  if x + j > 64 then y * 64 + 64 * i + (x + j) - 64 else y * 64 + 64 * i + (x + j)

/-- Bit `j` (most-significant first) of the sprite byte `b`: the loop at
interconnect.rs lines 129-132 stores `(b >> j) & 0x01` into
`values[8 - 1 - j]`, so `values[j] = (b >> (7 - j)) & 1`. -/
def spriteBit (b j : Nat) : Nat := (b >>> (7 - j)) % 2

/-- The sequence of (display index, sprite bit) writes performed by
`Interconnect::draw`'s two nested loops, in program order: rows `i`
ascending (interconnect.rs line 124), bits `j` ascending (line 136). -/
def drawWrites (x y : Nat) (sprite : List Nat) : List (Nat × Nat) :=
  (List.range sprite.length).flatMap fun i =>
    (List.range 8).map fun j =>
      (targetIndex x y i j, spriteBit (sprite.getD i 0) j)

/-- The mutable state of `Interconnect::draw`: the display buffer and the
`collision` flag (interconnect.rs line 121). -/
structure DrawState where
  display : Nat → Nat
  collision : Nat

/-- The body of `Interconnect::draw`'s inner loop (interconnect.rs lines
136-164), applied to each (index, bit) write in order: read `prev`, store
`value ^ prev`, set `collision` to 1 when a lit pixel was erased.  The
indexing `self.display[index]` panics (embedded as `none`) when `index`
is not below the display length `DISPLAY_SIZE = 2048`. -/
def blit : List (Nat × Nat) → DrawState → Option DrawState
  | [], ds => some ds
  | (idx, v) :: rest, ds =>
    if idx < 2048 then
      blit rest
        { display := writeMem ds.display idx (v ^^^ ds.display idx),
          collision :=
            if ds.display idx = 1 ∧ v ^^^ ds.display idx = 0 then 1
            else ds.collision }
    else
      none

/-- `Interconnect::draw` (interconnect.rs lines 119-172): XOR-blit the
sprite onto the display, returning the new display and the collision flag.
The SDL presentation call `draw_display` has no logical effect. -/
def draw (x y : Nat) (sprite : List Nat) (display : Nat → Nat) :
    Option ((Nat → Nat) × Nat) :=
  (blit (drawWrites x y sprite) ⟨display, 0⟩).map fun ds =>
    (ds.display, ds.collision)

/-- The `while x > 0` digit loop of the `FX33` arm (cpu.rs lines 164-168):
`digit_count += 1; digits[DECIMAL_LENGTH - digit_count] = x % 10; x /= 10`.
The loop runs at most three times because `x` is a u8 (< 256); the `gas`
argument (instantiated to the initial `x`, which always suffices since
`x` shrinks by `/ 10` each round) only makes the recursion structural. -/
def bcdLoop : Nat → Nat → List Nat → Nat → List Nat
  | 0, _, digits, _ => digits
  | gas + 1, x, digits, count =>
    if x > 0 then
      bcdLoop gas (x / 10) (digits.set (3 - (count + 1)) (x % 10)) (count + 1)
    else
      digits

/-- The three decimal digits stored by `FX33` for register value `x`
(`digits` starts as `vec![0; 3]`, cpu.rs line 160). -/
def bcdDigits (x : Nat) : List Nat := bcdLoop x x (List.replicate 3 0) 0

/-- `Cpu::execute_instruction` (cpu.rs lines 68-191).  The match arms are
in source order: `0x6`, `0xa`, `0xd`, `0x2`, `0xf`, catch-all.  A normal
arm falls through to `self.pc += INSTRUCTION_SIZE; false` (`.next`); the
`0x2` arm re-enters the loop (`.called`) and never reaches the increment;
every `panic!` is a `.panicked`. -/
def execute (m : Machine) (instr : Nat) : Outcome :=
  if opcodeOf instr = 0x6 then
    -- 6XNN - LD VX, NN: sets VX to NN.
    .next (advancePC (setReg m (regXOf instr) (byteOf instr)))
  else if opcodeOf instr = 0xa then
    -- ANNN - LD I, NNN: sets I to the address NNN.
    .next (advancePC { m with i := addrOf instr })
  else if opcodeOf instr = 0xd then
    -- DXYN - DRW VX, VY, N: XOR-draw an N-row sprite read from ram at I
    -- to (VX, VY); vf is set to the collision flag returned by draw.
    match readSprite m.ram m.i (nibbleOf instr) with
    | none => .panicked .oobRamRead m
    | some sprite =>
      match draw (getReg m (regXOf instr)) (getReg m (regYOf instr)) sprite
          m.display with
      | none => .panicked .oobDisplay m
      | some (d, collision) =>
        .next (advancePC { m with display := d, regs := m.regs.set 15 collision })
  else if opcodeOf instr = 0x2 then
    -- 2NNN - CALL NNN: push pc onto the 16-entry stack, bump sp (a u8),
    -- jump, then recursively re-enter the fetch-execute loop (cpu.rs 136).
    if m.sp < 16 then
      .called
        { m with
          stack := m.stack.set m.sp m.pc,
          sp := (m.sp + 1) % 256,
          pc := addrOf instr }
    else
      .panicked .oobStackWrite m
  else if opcodeOf instr = 0xf then
    if byteOf instr = 0x33 then
      -- FX33 - LD B, VX: store the BCD digits of VX at I, I+1, I+2
      -- (three sequential ram writes, bounds-checked against RAM_SIZE).
      if m.i + 2 < 4096 then
        .next (advancePC
          { m with
            ram :=
              writeMem
                (writeMem
                  (writeMem m.ram m.i ((bcdDigits (getReg m (regXOf instr))).getD 0 0))
                  (m.i + 1) ((bcdDigits (getReg m (regXOf instr))).getD 1 0))
                (m.i + 2) ((bcdDigits (getReg m (regXOf instr))).getD 2 0) })
      else
        .panicked .oobRamWrite m
    else
      .panicked (.unknownIdentifier instr) m
  else
    .panicked (.unknownOpcode instr) m

/-- `Cpu::run` (cpu.rs lines 56-65): `loop { let word = read_word(pc);
if execute_instruction(word) { break } }`, with explicit fuel.  A
`.called` outcome runs the nested loop the `2NNN` arm entered; if that
nested loop broke, the `panic!("unhandled")` at cpu.rs line 138 fires.
Note the loop never reads the `halt` flag. -/
def run : Nat → Machine → Outcome
  | 0, m => .fuelOut m
  | fuel + 1, m =>
    match readWord m with
    | none => .panicked .oobFetch m
    | some word =>
      match execute m word with
      | .next m' => run fuel m'
      | .called m' =>
        match run fuel m' with
        | .brk m'' => .panicked .unhandledCall m''
        | r => r
      | r => r

/-- The font table dumped by `Interconnect::dump_fonts` (interconnect.rs
lines 202-233), flattened: glyph `i`, row `j` lives at `i * 5 + j`. -/
def fontData : List Nat :=
  [0xF0, 0x90, 0x90, 0x90, 0xF0,
   0x20, 0x60, 0x20, 0x20, 0x70,
   0xF0, 0x10, 0xF0, 0x80, 0xF0,
   0xF0, 0x10, 0xF0, 0x10, 0xF0,
   0x90, 0x90, 0xF0, 0x10, 0x10,
   0xF0, 0x80, 0xF0, 0x10, 0xF0,
   0xF0, 0x80, 0xF0, 0x90, 0xF0,
   0xF0, 0x10, 0x20, 0x40, 0x40,
   0xF0, 0x90, 0xF0, 0x90, 0xF0,
   0xF0, 0x90, 0xF0, 0x10, 0xF0,
   0xF0, 0x90, 0xF0, 0x90, 0x90,
   0xE0, 0x90, 0xE0, 0x90, 0xE0,
   0xF0, 0x80, 0x80, 0x80, 0xF0,
   0xE0, 0x90, 0x90, 0x90, 0xE0,
   0xF0, 0x80, 0xF0, 0x80, 0xF0,
   0xF0, 0x80, 0xF0, 0x80, 0x80]

/-- The rom-copy loop of `Interconnect::new` (interconnect.rs lines
55-57): `ram[i + END_RESERVED] = rom[i]` with `END_RESERVED = 0x200`. -/
def loadRom (ram : Nat → Nat) (rom : List Nat) : Nat → Nat :=
  (List.range rom.length).foldl (fun acc k => writeMem acc (k + 0x200) (rom.getD k 0)) ram

/-- `Interconnect::dump_fonts` as a fold over the 80 font bytes. -/
def dumpFonts (ram : Nat → Nat) : Nat → Nat :=
  (List.range 80).foldl (fun acc k => writeMem acc k (fontData.getD k 0)) ram

/-- A freshly created machine: `Cpu::new(Interconnect::new(rom))`
(cpu.rs lines 47-53, interconnect.rs lines 51-91).  `pc` starts at
`END_RESERVED = 0x200`; every other cpu field is zero (`Cpu::default()`);
ram is 4096 zero bytes with the rom copied in at 0x200 and the fonts
dumped at 0; the display starts all zero; `halt` starts false. -/
def freshMachine (rom : List Nat) : Machine :=
  { pc := 0x200,
    stack := List.replicate 16 0,
    sp := 0,
    regs := List.replicate 16 0,
    i := 0,
    dt := 0,
    st := 0,
    halt := false,
    ram := dumpFonts (loadRom (fun _ => 0) rom),
    display := fun _ => 0 }

/-- A convenient well-formed machine state used by concrete witnesses:
all-zero registers and memory, `pc` at the program start. -/
def baseMachine : Machine :=
  { pc := 0x200,
    stack := List.replicate 16 0,
    sp := 0,
    regs := List.replicate 16 0,
    i := 0,
    dt := 0,
    st := 0,
    halt := false,
    ram := fun _ => 0,
    display := fun _ => 0 }

/-- The program-counter invariant claimed by the specification: an even
byte offset within `[0x200, 0xFFF]`. -/
def pcInvariant (m : Machine) : Prop :=
  m.pc % 2 = 0 ∧ 0x200 ≤ m.pc ∧ m.pc ≤ 0xFFF

instance (m : Machine) : Decidable (pcInvariant m) := by
  unfold pcInvariant; infer_instance

/-- Modelled from the claim's words (for comparison with the code): the
call transition `(PC, SP) -> (NNN, SP+1)` recording the prior `PC` at
`stack[SP]`, after which execution is claimed to continue in the same
top-level dispatch loop — i.e. `execute` would hand this state back as a
plain `.next` continuation. -/
def specCallStep (m : Machine) (instr : Nat) : Machine :=
  { m with
    stack := m.stack.set m.sp m.pc,
    sp := m.sp + 1,
    pc := addrOf instr }

/-! ### Buffer write helpers -/

theorem writeMem_same (f : Nat → Nat) (a v : Nat) : writeMem f a v a = v := by
  simp [writeMem]

theorem writeMem_other (f : Nat → Nat) (a v b : Nat) (h : b ≠ a) :
    writeMem f a v b = f b := by
  simp [writeMem, h]

/-! ### The draw write sequence -/

/-- Distinct (row, bit) pairs of a sprite target distinct display indices:
within one row the eight positions differ by at most 7 before wrapping and
the wrap subtracts exactly 64, while rows are 64 apart. -/
theorem targetIndex_inj {x y i1 j1 i2 j2 : Nat} (h1 : j1 < 8) (h2 : j2 < 8)
    (h : targetIndex x y i1 j1 = targetIndex x y i2 j2) : i1 = i2 ∧ j1 = j2 := by
  unfold targetIndex at h
  split_ifs at h <;> omega

theorem mem_drawWrites {x y : Nat} {sprite : List Nat} {p : Nat × Nat} :
    p ∈ drawWrites x y sprite ↔
      ∃ i, i < sprite.length ∧ ∃ j, j < 8 ∧
        p = (targetIndex x y i j, spriteBit (sprite.getD i 0) j) := by
  simp only [drawWrites, List.mem_flatMap, List.mem_map, List.mem_range]
  constructor
  · rintro ⟨i, hi, j, hj, he⟩
    exact ⟨i, hi, j, hj, he.symm⟩
  · rintro ⟨i, hi, j, hj, he⟩
    exact ⟨i, hi, j, hj, he.symm⟩

theorem drawWrites_fst_nodup (x y : Nat) (sprite : List Nat) :
    ((drawWrites x y sprite).map Prod.fst).Nodup := by
  unfold drawWrites
  rw [List.map_flatMap, List.nodup_flatMap]
  constructor
  · intro i _
    rw [List.map_map]
    refine List.Nodup.map_on ?_ (List.nodup_range 8)
    intro j1 hj1 j2 hj2 heq
    rw [List.mem_range] at hj1 hj2
    exact (targetIndex_inj hj1 hj2 heq).2
  · refine (List.pairwise_lt_range _).imp ?_
    intro i1 i2 hlt
    simp only [Function.onFun, List.map_map]
    intro a ha1 ha2
    simp only [List.mem_map, List.mem_range, Function.comp] at ha1 ha2
    obtain ⟨j1, hj1, he1⟩ := ha1
    obtain ⟨j2, hj2, he2⟩ := ha2
    have := (targetIndex_inj hj1 hj2 (he1.trans he2.symm)).1
    omega

/-! ### Blit lemmas -/

theorem blit_bounds : ∀ (l : List (Nat × Nat)) (ds ds' : DrawState),
    blit l ds = some ds' → ∀ p ∈ l, p.1 < 2048 := by
  intro l
  induction l with
  | nil => intro ds ds' _ p hp; cases hp
  | cons q rest ih =>
    obtain ⟨idx, v⟩ := q
    intro ds ds' h p hp
    simp only [blit] at h
    by_cases hb : idx < 2048
    · rw [if_pos hb] at h
      rcases List.mem_cons.mp hp with rfl | hmem
      · exact hb
      · exact ih _ _ h p hmem
    · rw [if_neg hb] at h
      cases h

theorem blit_ok : ∀ (l : List (Nat × Nat)) (ds : DrawState),
    (∀ p ∈ l, p.1 < 2048) → ∃ ds', blit l ds = some ds' := by
  intro l
  induction l with
  | nil => intro ds _; exact ⟨ds, rfl⟩
  | cons q rest ih =>
    obtain ⟨idx, v⟩ := q
    intro ds hbound
    have hb : idx < 2048 := hbound (idx, v) (List.mem_cons_self ..)
    simp only [blit, if_pos hb]
    exact ih _ fun p hp => hbound p (List.mem_cons_of_mem _ hp)

/-- Characterization of `blit` on a write list whose indices are pairwise
distinct: every listed index receives old-value XOR bit, every other index
is untouched, and the collision flag becomes 1 exactly when some listed
write erases a lit pixel. -/
theorem blit_spec : ∀ (l : List (Nat × Nat)) (ds ds' : DrawState),
    (l.map Prod.fst).Nodup → blit l ds = some ds' →
    (∀ p ∈ l, ds'.display p.1 = p.2 ^^^ ds.display p.1) ∧
    (∀ k, (∀ p ∈ l, p.1 ≠ k) → ds'.display k = ds.display k) ∧
    (ds'.collision = 1 ↔
      (ds.collision = 1 ∨ ∃ p ∈ l,
        ds.display p.1 = 1 ∧ p.2 ^^^ ds.display p.1 = 0)) ∧
    (ds'.collision = ds.collision ∨ ds'.collision = 1) := by
  intro l
  induction l with
  | nil =>
    intro ds ds' _ h
    simp only [blit, Option.some.injEq] at h
    subst h
    exact ⟨by simp, fun k _ => rfl, by simp, Or.inl rfl⟩
  | cons q rest ih =>
    obtain ⟨idx, v⟩ := q
    intro ds ds' hnd h
    rw [List.map_cons, List.nodup_cons] at hnd
    obtain ⟨hni, hnd'⟩ := hnd
    have hne : ∀ p ∈ rest, p.1 ≠ idx := by
      intro p hp hpe
      have hmm := List.mem_map_of_mem Prod.fst hp
      rw [hpe] at hmm
      exact hni hmm
    simp only [blit] at h
    by_cases hb : idx < 2048
    · rw [if_pos hb] at h
      obtain ⟨hset, huntouched, hcol, hcol01⟩ := ih _ _ hnd' h
      dsimp only at hset huntouched hcol hcol01
      have hread_at : writeMem ds.display idx (v ^^^ ds.display idx) idx
          = v ^^^ ds.display idx := writeMem_same ..
      have hread_ne : ∀ k, k ≠ idx →
          writeMem ds.display idx (v ^^^ ds.display idx) k = ds.display k :=
        fun k hk => writeMem_other _ _ _ _ hk
      refine ⟨?_, ?_, ?_, ?_⟩
      · intro p hp
        rcases List.mem_cons.mp hp with rfl | hmem
        · rw [huntouched idx hne, hread_at]
        · rw [hset p hmem, hread_ne p.1 (hne p hmem)]
      · intro k hk
        have h1 := huntouched k fun p hp => hk p (List.mem_cons_of_mem _ hp)
        rw [h1, hread_ne k (Ne.symm (hk (idx, v) (List.mem_cons_self ..)))]
      · have hrw : (∃ p ∈ rest,
            writeMem ds.display idx (v ^^^ ds.display idx) p.1 = 1 ∧
              p.2 ^^^ writeMem ds.display idx (v ^^^ ds.display idx) p.1 = 0) ↔
            (∃ p ∈ rest, ds.display p.1 = 1 ∧ p.2 ^^^ ds.display p.1 = 0) := by
          constructor
          · rintro ⟨p, hp, h1, h2⟩
            rw [hread_ne p.1 (hne p hp)] at h1 h2
            exact ⟨p, hp, h1, h2⟩
          · rintro ⟨p, hp, h1, h2⟩
            rw [← hread_ne p.1 (hne p hp)] at h1 h2
            exact ⟨p, hp, h1, h2⟩
        rw [hrw] at hcol
        rw [hcol]
        by_cases hc : ds.display idx = 1 ∧ v ^^^ ds.display idx = 0
        · simp only [if_pos hc]
          constructor
          · intro _
            exact Or.inr ⟨(idx, v), List.mem_cons_self .., hc⟩
          · intro _
            left
            trivial
        · simp only [if_neg hc]
          constructor
          · rintro (h1 | ⟨p, hp, hp1, hp2⟩)
            · exact Or.inl h1
            · exact Or.inr ⟨p, List.mem_cons_of_mem _ hp, hp1, hp2⟩
          · rintro (h1 | ⟨p, hp, hp1, hp2⟩)
            · exact Or.inl h1
            · rcases List.mem_cons.mp hp with rfl | hmem
              · exact absurd ⟨hp1, hp2⟩ hc
              · exact Or.inr ⟨p, hmem, hp1, hp2⟩
      · by_cases hc : ds.display idx = 1 ∧ v ^^^ ds.display idx = 0
        · rw [if_pos hc] at hcol01
          rcases hcol01 with h1 | h1
          · exact Or.inr h1
          · exact Or.inr h1
        · rw [if_neg hc] at hcol01
          exact hcol01
    · rw [if_neg hb] at h
      cases h

/-! ### Draw lemmas -/

/-- Characterization of a successful `Interconnect::draw`: the XOR update
at every targeted index, the untouched indices, and the collision flag. -/
theorem draw_spec {x y : Nat} {sprite : List Nat} {d0 d1 : Nat → Nat} {c : Nat}
    (h : draw x y sprite d0 = some (d1, c)) :
    (∀ i, i < sprite.length → ∀ j, j < 8 →
      d1 (targetIndex x y i j)
        = spriteBit (sprite.getD i 0) j ^^^ d0 (targetIndex x y i j)) ∧
    (∀ k, (∀ i, i < sprite.length → ∀ j, j < 8 → targetIndex x y i j ≠ k) →
      d1 k = d0 k) ∧
    (c = 1 ↔ ∃ i, i < sprite.length ∧ ∃ j, j < 8 ∧
      d0 (targetIndex x y i j) = 1 ∧ spriteBit (sprite.getD i 0) j = 1) ∧
    (c = 0 ∨ c = 1) := by
  unfold draw at h
  cases hb : blit (drawWrites x y sprite) ⟨d0, 0⟩ with
  | none => rw [hb] at h; cases h
  | some ds =>
    rw [hb] at h
    simp only [Option.map_some', Option.some.injEq, Prod.mk.injEq] at h
    obtain ⟨hd, hc⟩ := h
    subst hd
    subst hc
    obtain ⟨hset, hun, hcol, hcol01⟩ :=
      blit_spec _ _ _ (drawWrites_fst_nodup x y sprite) hb
    dsimp only at hset hun hcol hcol01
    refine ⟨?_, ?_, ?_, ?_⟩
    · intro i hi j hj
      have := hset (targetIndex x y i j, spriteBit (sprite.getD i 0) j)
        (mem_drawWrites.mpr ⟨i, hi, j, hj, rfl⟩)
      simpa using this
    · intro k hk
      refine hun k ?_
      intro p hp
      obtain ⟨i, hi, j, hj, rfl⟩ := mem_drawWrites.mp hp
      exact hk i hi j hj
    · rw [hcol]
      constructor
      · rintro (h0 | ⟨p, hp, h1, h2⟩)
        · simp at h0
        · obtain ⟨i, hi, j, hj, rfl⟩ := mem_drawWrites.mp hp
          dsimp only at h1 h2
          rw [h1, Nat.xor_eq_zero] at h2
          exact ⟨i, hi, j, hj, h1, h2⟩
      · rintro ⟨i, hi, j, hj, h1, h2⟩
        refine Or.inr ⟨(targetIndex x y i j, spriteBit (sprite.getD i 0) j),
          mem_drawWrites.mpr ⟨i, hi, j, hj, rfl⟩, h1, ?_⟩
        dsimp only
        rw [h1, h2]
        decide
    · rcases hcol01 with h0 | h1
      · exact Or.inl h0
      · exact Or.inr h1

/-- A successful draw visited only in-bounds display indices. -/
theorem draw_bounds {x y : Nat} {sprite : List Nat} {d0 d1 : Nat → Nat} {c : Nat}
    (h : draw x y sprite d0 = some (d1, c)) :
    ∀ i, i < sprite.length → ∀ j, j < 8 → targetIndex x y i j < 2048 := by
  intro i hi j hj
  unfold draw at h
  cases hb : blit (drawWrites x y sprite) ⟨d0, 0⟩ with
  | none => rw [hb] at h; cases h
  | some ds =>
    have := blit_bounds _ _ _ hb
      (targetIndex x y i j, spriteBit (sprite.getD i 0) j)
      (mem_drawWrites.mpr ⟨i, hi, j, hj, rfl⟩)
    simpa using this

/-- A draw whose targets are all in bounds succeeds. -/
theorem draw_ok {x y : Nat} {sprite : List Nat} (d0 : Nat → Nat)
    (hb : ∀ i, i < sprite.length → ∀ j, j < 8 → targetIndex x y i j < 2048) :
    ∃ d1 c, draw x y sprite d0 = some (d1, c) := by
  have hall : ∀ p ∈ drawWrites x y sprite, p.1 < 2048 := by
    intro p hp
    obtain ⟨i, hi, j, hj, rfl⟩ := mem_drawWrites.mp hp
    exact hb i hi j hj
  obtain ⟨ds, hds⟩ := blit_ok _ ⟨d0, 0⟩ hall
  exact ⟨ds.display, ds.collision, by rw [draw, hds, Option.map_some']⟩

/-! ### Sprite read and BCD lemmas -/

/-- A successful sprite read returns exactly the `n` ram bytes starting at
`base` — in the DXYN arm, the bytes of `[I, I+N)`. -/
theorem readSprite_spec : ∀ (n : Nat) (ram : Nat → Nat) (base : Nat) (s : List Nat),
    readSprite ram base n = some s →
    s.length = n ∧ ∀ i, i < n → s.getD i 0 = ram (base + i) := by
  intro n
  induction n with
  | zero =>
    intro ram base s h
    simp only [readSprite, Option.some.injEq] at h
    subst h
    exact ⟨rfl, fun i hi => absurd hi (by omega)⟩
  | succ k ih =>
    intro ram base s h
    simp only [readSprite] at h
    by_cases hb : base < 4096
    · rw [if_pos hb] at h
      cases hr : readSprite ram (base + 1) k with
      | none => rw [hr] at h; cases h
      | some rest =>
        rw [hr] at h
        simp only [Option.some.injEq] at h
        subst h
        obtain ⟨hlen, hval⟩ := ih _ _ _ hr
        refine ⟨by simp [hlen], ?_⟩
        intro i hi
        cases i with
        | zero => simp
        | succ i' =>
          rw [List.getD_cons_succ, hval i' (by omega)]
          congr 1
          omega
    · rw [if_neg hb] at h
      cases h

/-- The BCD while-loop computes the hundreds, tens, and ones decimal
digits for every u8 value, storing leading zeros as 0. -/
theorem bcd_correct : ∀ x, x < 256 → bcdDigits x = [x / 100 % 10, x / 10 % 10, x % 10] := by
  decide

/-! ### Machines used by concrete counterexamples and witnesses -/

/-- A machine whose program is the single instruction `0x2200`: a
subroutine call to its own address, so every executed instruction is a
fresh call. -/
def selfCallMachine : Machine :=
  { baseMachine with ram := writeMem (fun _ => 0) 0x200 0x22 }

/-- A machine whose program is `0x6105` (`LD V1, 5`) and whose host has
already raised the halt flag. -/
def haltedMachine : Machine :=
  { baseMachine with
    ram := writeMem (writeMem (fun _ => 0) 0x200 0x61) 0x201 0x05,
    halt := true }

/-! ### Claim theorems -/

/-- Claim C1, counterexample: executing an instruction with undefined
primary opcode (0x0000) on a freshly created machine does not signal a
recoverable `UnsupportedOpcode` error — it fires the `panic!` at cpu.rs
line 183, which terminates the process.  (The machine state recorded at
the panic is unchanged.) -/
theorem c1_counterexample :
    execute (freshMachine []) 0x0000
      = .panicked (.unknownOpcode 0x0000) (freshMachine []) ∧
    isPanicked (execute (freshMachine []) 0x0000) = true :=
  ⟨rfl, rfl⟩

/-- Claim C1 (amended): for every instruction whose primary opcode is not
one of `6`, `A`, `D`, `2`, `F`, and for every `F`-family instruction whose
secondary identifier is not `0x33`, execution panics (process-terminating
`panic!`, not a recoverable error), with no state mutation performed
before the panic. -/
theorem c1_amended (m : Machine) (instr : Nat)
    (h : (opcodeOf instr ≠ 0x2 ∧ opcodeOf instr ≠ 0x6 ∧ opcodeOf instr ≠ 0xa ∧
            opcodeOf instr ≠ 0xd ∧ opcodeOf instr ≠ 0xf) ∨
         (opcodeOf instr = 0xf ∧ byteOf instr ≠ 0x33)) :
    execute m instr = .panicked (.unknownOpcode instr) m ∨
    execute m instr = .panicked (.unknownIdentifier instr) m := by
  unfold execute
  rcases h with ⟨h2, h6, ha, hd, hf⟩ | ⟨hf, hb⟩
  · rw [if_neg h6, if_neg ha, if_neg hd, if_neg h2, if_neg hf]
    exact Or.inl rfl
  · rw [hf]
    rw [if_neg (by norm_num), if_neg (by norm_num), if_neg (by norm_num),
      if_neg (by norm_num), if_pos rfl, if_neg hb]
    exact Or.inr rfl

theorem c1_witness :
    ((opcodeOf 0x0123 ≠ 0x2 ∧ opcodeOf 0x0123 ≠ 0x6 ∧ opcodeOf 0x0123 ≠ 0xa ∧
        opcodeOf 0x0123 ≠ 0xd ∧ opcodeOf 0x0123 ≠ 0xf) ∨
      (opcodeOf 0x0123 = 0xf ∧ byteOf 0x0123 ≠ 0x33)) ∧
    (execute baseMachine 0x0123 = .panicked (.unknownOpcode 0x0123) baseMachine ∨
      execute baseMachine 0x0123 = .panicked (.unknownIdentifier 0x0123) baseMachine) :=
  ⟨by decide, c1_amended baseMachine 0x0123 (by decide)⟩

/-- Claim C2, counterexample: executing the call `0x2345` performs the
claimed push transition, but does not hand that state back to the invoking
dispatch loop as a plain continuation — the `2NNN` arm re-enters the
fetch-execute loop recursively (cpu.rs line 136), embedded as the
`.called` outcome, so the claim's "execution continues via the same single
top-level dispatch loop (no nested re-entrant invocation)" is false of the
code. -/
theorem c2_counterexample :
    execute baseMachine 0x2345 = .called (specCallStep baseMachine 0x2345) ∧
    execute baseMachine 0x2345 ≠ .next (specCallStep baseMachine 0x2345) := by
  refine ⟨rfl, ?_⟩
  intro hcontra
  have heq : execute baseMachine 0x2345
      = Outcome.called (specCallStep baseMachine 0x2345) := rfl
  rw [heq] at hcontra
  cases hcontra

/-- Claim C2 (amended): for every machine state with `SP < 16`, executing
`2NNN` records the prior `PC` at `stack[SP]`, increments `SP`, sets
`PC := NNN`, changes nothing else, and does not additionally advance `PC`
by 2 — but execution then proceeds by a nested re-entrant invocation of
the fetch-execute loop (the `.called` outcome), never by returning the
pushed state to the top-level loop as a plain `.next` continuation. -/
theorem c2_amended (m : Machine) (instr : Nat)
    (hop : opcodeOf instr = 0x2) (hsp : m.sp < 16) (hlen : m.stack.length = 16) :
    execute m instr
      = .called { m with
          stack := m.stack.set m.sp m.pc,
          sp := m.sp + 1,
          pc := addrOf instr } ∧
    (m.stack.set m.sp m.pc).getD m.sp 0 = m.pc ∧
    (∀ m', execute m instr ≠ .next m') := by
  have hlt : m.sp < m.stack.length := by rw [hlen]; exact hsp
  have hmod : (m.sp + 1) % 256 = m.sp + 1 := Nat.mod_eq_of_lt (by omega)
  have hgd : (m.stack.set m.sp m.pc).getD m.sp 0 = m.pc := by
    rw [List.getD_eq_getElem?_getD, List.getElem?_set_self hlt, Option.getD_some]
  refine ⟨?_, hgd, ?_⟩
  · unfold execute
    rw [hop, if_neg (by norm_num), if_neg (by norm_num), if_neg (by norm_num),
      if_pos rfl, if_pos hsp, hmod]
  · intro m' hc
    unfold execute at hc
    rw [hop, if_neg (by norm_num), if_neg (by norm_num), if_neg (by norm_num),
      if_pos rfl, if_pos hsp] at hc
    cases hc

theorem c2_witness :
    execute baseMachine 0x2456
      = .called { baseMachine with
          stack := baseMachine.stack.set baseMachine.sp baseMachine.pc,
          sp := baseMachine.sp + 1,
          pc := addrOf 0x2456 } :=
  (c2_amended baseMachine 0x2456 (by decide) (by decide) (by decide)).1

/-- Claim C3: the code's draw targeting contradicts per-axis modulo
wrapping.  Drawing the byte 0xC0 at `x = 63, y = 0` puts its second bit at
display index 64 — row 1, column 0 — instead of row 0, column 0 (the
boundary test `pos > 64` at interconnect.rs line 144 misses `pos = 64`);
and drawing a two-row sprite at `y = 31` panics on display index 2048
instead of wrapping to row 0 (rows are never wrapped). -/
theorem c3_behavior :
    ((draw 63 0 [0xC0] fun _ => 0).map fun p => (p.1 0, p.1 63, p.1 64, p.2))
      = some (0, 1, 1, 0) ∧
    (draw 0 31 [0x80, 0x80] fun _ => 0) = none :=
  ⟨rfl, rfl⟩

/-- Claim C5, counterexample: starting from `SP = 0` with the self-call
program `0x2200`, the seventeenth call does not raise a recoverable
`StackOverflow` — the run panics (index out of bounds on
`self.stack[self.sp]`, cpu.rs line 130) with `SP = 16` and all sixteen
stack slots holding 0x200. -/
theorem c5_counterexample :
    run 18 selfCallMachine
      = .panicked .oobStackWrite
          { selfCallMachine with sp := 16, stack := List.replicate 16 0x200 } := by
  rfl

/-- Claim C5 (amended): sixteen nested calls succeed — after them the
machine has `SP = 16` with every stack slot written — and the seventeenth
call panics with an index-out-of-bounds (process-terminating, not a
recoverable `StackOverflow`); the bounds check fires before any write
outside the 16-entry stack. -/
theorem c5_amended :
    (∀ (m : Machine) (instr : Nat), opcodeOf instr = 0x2 →
      ¬ m.sp < 16 → execute m instr = .panicked .oobStackWrite m) ∧
    (stateOf (run 18 selfCallMachine)).sp = 16 ∧
    (stateOf (run 18 selfCallMachine)).stack = List.replicate 16 0x200 ∧
    isPanicked (run 18 selfCallMachine) = true := by
  refine ⟨?_, rfl, rfl, rfl⟩
  intro m instr hop hsp
  unfold execute
  rw [hop, if_neg (by norm_num), if_neg (by norm_num), if_neg (by norm_num),
    if_pos rfl, if_neg hsp]

theorem c5_witness :
    execute { selfCallMachine with sp := 16, stack := List.replicate 16 0x200 } 0x2200
      = .panicked .oobStackWrite
          { selfCallMachine with sp := 16, stack := List.replicate 16 0x200 } :=
  c5_amended.1 _ 0x2200 (by decide) (by decide)

/-- Claim C8, counterexample: from a freshly created machine whose program
is the single call `0x2101`, one executed instruction reaches a state (a
loop-iteration boundary, about to fetch) whose `PC = 0x101` — odd and
below 0x200 — violating the claimed invariant. -/
theorem c8_counterexample :
    isFuelOut (run 1 (freshMachine [0x21, 0x01])) = true ∧
    (stateOf (run 1 (freshMachine [0x21, 0x01]))).pc = 0x101 ∧
    ¬ pcInvariant (stateOf (run 1 (freshMachine [0x21, 0x01]))) :=
  ⟨rfl, rfl, by decide⟩

/-- Claim C8 (amended): a freshly created machine starts at `PC = 0x200`,
and every successfully completed non-call instruction moves `PC` from `p`
to `(p + 2) mod 2^16`; but a call sets `PC := NNN` for an arbitrary 12-bit
`NNN`, so the claimed "even and within [0x200, 0xFFF]" invariant does not
hold of all reachable states. -/
theorem c8_amended :
    (∀ rom : List Nat, (freshMachine rom).pc = 0x200) ∧
    (∀ (m m' : Machine) (instr : Nat), opcodeOf instr ≠ 0x2 →
      execute m instr = .next m' → m'.pc = (m.pc + 2) % 65536) := by
  refine ⟨fun rom => rfl, ?_⟩
  intro m m' instr hop h
  unfold execute at h
  by_cases h6 : opcodeOf instr = 0x6
  · rw [if_pos h6] at h
    cases h
    rfl
  rw [if_neg h6] at h
  by_cases ha : opcodeOf instr = 0xa
  · rw [if_pos ha] at h
    cases h
    rfl
  rw [if_neg ha] at h
  by_cases hd : opcodeOf instr = 0xd
  · rw [if_pos hd] at h
    split at h
    · cases h
    · split at h
      · cases h
      · cases h
        rfl
  rw [if_neg hd, if_neg hop] at h
  by_cases hf : opcodeOf instr = 0xf
  · rw [if_pos hf] at h
    by_cases hb : byteOf instr = 0x33
    · rw [if_pos hb] at h
      by_cases hg : m.i + 2 < 4096
      · rw [if_pos hg] at h
        cases h
        rfl
      · rw [if_neg hg] at h
        cases h
    · rw [if_neg hb] at h
      cases h
  · rw [if_neg hf] at h
    cases h

theorem c8_witness :
    (freshMachine []).pc = 0x200 ∧
    (stateOf (execute baseMachine 0x6105)).pc = (baseMachine.pc + 2) % 65536 :=
  ⟨c8_amended.1 [],
    c8_amended.2 baseMachine (stateOf (execute baseMachine 0x6105)) 0x6105
      (by decide) rfl⟩

/-- Claim C9: the dispatch loop of `Cpu::run` never reads the
interconnect's halt flag (contradicting the field's own documentation at
interconnect.rs lines 39-41): on a machine whose halt flag is already set,
one loop iteration still fetches and executes the instruction (`V1`
becomes 5 and `PC` advances) rather than returning cleanly. -/
theorem c9_behavior :
    haltedMachine.halt = true ∧
    isFuelOut (run 1 haltedMachine) = true ∧
    getReg (stateOf (run 1 haltedMachine)) 1 = 5 ∧
    (stateOf (run 1 haltedMachine)).pc = 0x202 ∧
    (stateOf (run 1 haltedMachine)).halt = true :=
  ⟨rfl, rfl, rfl, rfl, rfl⟩

/-- A machine with `V1 = 255` and `I = 0x300`, used to witness the FX33
claims via the instruction `0xF133`. -/
def c6m : Machine :=
  { baseMachine with regs := (List.replicate 16 0).set 1 255, i := 0x300 }

/-- Claim C6: for every u8 value of `Vx`, executing `FX33` stores the
hundreds decimal digit of `Vx` at `Memory[I]`, the tens digit at
`Memory[I+1]`, and the ones digit at `Memory[I+2]`, with leading zero
digits stored as 0 (the digits vector starts zeroed). -/
theorem c6_bcd (m : Machine) (instr : Nat) (m' : Machine)
    (hop : opcodeOf instr = 0xf) (hid : byteOf instr = 0x33)
    (hvx : getReg m (regXOf instr) < 256)
    (hi : m.i + 2 < 4096)
    (h : execute m instr = .next m') :
    m'.ram m.i = getReg m (regXOf instr) / 100 % 10 ∧
    m'.ram (m.i + 1) = getReg m (regXOf instr) / 10 % 10 ∧
    m'.ram (m.i + 2) = getReg m (regXOf instr) % 10 := by
  unfold execute at h
  rw [hop, if_neg (by norm_num), if_neg (by norm_num), if_neg (by norm_num),
    if_neg (by norm_num), if_pos rfl, if_pos hid, if_pos hi] at h
  cases h
  dsimp only [advancePC]
  rw [bcd_correct _ hvx]
  refine ⟨?_, ?_, ?_⟩
  · rw [writeMem_other _ _ _ _ (by omega), writeMem_other _ _ _ _ (by omega),
      writeMem_same]
    simp
  · rw [writeMem_other _ _ _ _ (by omega), writeMem_same]
    simp
  · rw [writeMem_same]
    simp

theorem c6_witness :
    execute c6m 0xF133 = .next (stateOf (execute c6m 0xF133)) ∧
    (stateOf (execute c6m 0xF133)).ram c6m.i = 2 ∧
    (stateOf (execute c6m 0xF133)).ram (c6m.i + 1) = 5 ∧
    (stateOf (execute c6m 0xF133)).ram (c6m.i + 2) = 5 := by
  have h := c6_bcd c6m 0xF133 (stateOf (execute c6m 0xF133)) rfl rfl
    (by decide) (by decide) rfl
  exact ⟨rfl, h.1, h.2.1, h.2.2⟩

/-- Claim C10: executing `FX33` writes ram only at `I`, `I+1`, `I+2`;
`Vx` keeps its value (the loop works on a copy), all sixteen registers,
`I`, `SP`, the stack, the timers, the display and the halt flag are
untouched, and `PC` advances by exactly 2. -/
theorem c10_frame (m : Machine) (instr : Nat) (m' : Machine)
    (hop : opcodeOf instr = 0xf) (hid : byteOf instr = 0x33)
    (hi : m.i + 2 < 4096) (hpc : m.pc + 2 < 65536)
    (h : execute m instr = .next m') :
    m'.pc = m.pc + 2 ∧
    m'.regs = m.regs ∧
    getReg m' (regXOf instr) = getReg m (regXOf instr) ∧
    m'.i = m.i ∧
    m'.sp = m.sp ∧
    m'.stack = m.stack ∧
    m'.dt = m.dt ∧
    m'.st = m.st ∧
    m'.halt = m.halt ∧
    m'.display = m.display ∧
    (∀ a, a ≠ m.i → a ≠ m.i + 1 → a ≠ m.i + 2 → m'.ram a = m.ram a) := by
  unfold execute at h
  rw [hop, if_neg (by norm_num), if_neg (by norm_num), if_neg (by norm_num),
    if_neg (by norm_num), if_pos rfl, if_pos hid, if_pos hi] at h
  cases h
  dsimp only [advancePC]
  refine ⟨Nat.mod_eq_of_lt hpc, rfl, rfl, rfl, rfl, rfl, rfl, rfl, rfl, rfl, ?_⟩
  intro a h1 h2 h3
  rw [writeMem_other _ _ _ _ h3, writeMem_other _ _ _ _ h2,
    writeMem_other _ _ _ _ h1]

theorem c10_witness :
    execute c6m 0xF033 = .next (stateOf (execute c6m 0xF033)) ∧
    (stateOf (execute c6m 0xF033)).pc = c6m.pc + 2 ∧
    (stateOf (execute c6m 0xF033)).display = c6m.display ∧
    getReg (stateOf (execute c6m 0xF033)) (regXOf 0xF033) = getReg c6m (regXOf 0xF033) ∧
    (stateOf (execute c6m 0xF033)).ram 0x100 = c6m.ram 0x100 := by
  obtain ⟨hpc, hregs, hvx, hii, hsp, hstack, hdt, hst, hhalt, hdisp, hram⟩ :=
    c10_frame c6m 0xF033 (stateOf (execute c6m 0xF033)) rfl rfl
      (by decide) (by decide) rfl
  exact ⟨rfl, hpc, hdisp, hvx, hram 0x100 (by decide) (by decide) (by decide)⟩

/-- A machine whose ram byte 0 is the sprite byte 0xA0 (`I` = 0), used to
witness the DXYN claim via the instruction `0xD001`. -/
def c4m : Machine :=
  { baseMachine with ram := writeMem (fun _ => 0) 0 0xA0 }

/-- Claim C4: for every `DXYN` instruction whose execution completes, the
`N` sprite bytes are read from ram at `[I, I+N)`, each targeted display
pixel becomes `old_value XOR sprite_bit` (most-significant bit first
within each byte), untouched pixels keep their value, and `VF` is set to
1 exactly when some pixel transitions from 1 to 0, and to 0 otherwise. -/
theorem c4_draw (m : Machine) (instr : Nat) (m' : Machine)
    (hop : opcodeOf instr = 0xd) (hregs : m.regs.length = 16)
    (h : execute m instr = .next m') :
    (∀ i, i < nibbleOf instr → ∀ j, j < 8 →
      m'.display (targetIndex (getReg m (regXOf instr)) (getReg m (regYOf instr)) i j)
        = spriteBit (m.ram (m.i + i)) j
            ^^^ m.display (targetIndex (getReg m (regXOf instr)) (getReg m (regYOf instr)) i j)) ∧
    (∀ k, (∀ i, i < nibbleOf instr → ∀ j, j < 8 →
        targetIndex (getReg m (regXOf instr)) (getReg m (regYOf instr)) i j ≠ k) →
      m'.display k = m.display k) ∧
    (getReg m' 15 = 1 ↔ ∃ k, m.display k = 1 ∧ m'.display k = 0) ∧
    (getReg m' 15 = 0 ∨ getReg m' 15 = 1) := by
  unfold execute at h
  rw [hop, if_neg (by norm_num), if_neg (by norm_num), if_pos rfl] at h
  split at h
  · cases h
  · rename_i sprite hr
    split at h
    · cases h
    · rename_i d col hd
      cases h
      obtain ⟨hslen, hsval⟩ := readSprite_spec _ _ _ _ hr
      obtain ⟨hset, hun, hcol, hcol01⟩ := draw_spec hd
      rw [hslen] at hset hun hcol
      have hvf :
          getReg (advancePC { m with display := d, regs := m.regs.set 15 col }) 15
            = col := by
        show (m.regs.set 15 col).getD 15 0 = col
        rw [List.getD_eq_getElem?_getD,
          List.getElem?_set_self (by rw [hregs]; norm_num), Option.getD_some]
      refine ⟨?_, ?_, ?_, ?_⟩
      · intro i hi j hj
        show d (targetIndex (getReg m (regXOf instr)) (getReg m (regYOf instr)) i j)
          = spriteBit (m.ram (m.i + i)) j
              ^^^ m.display (targetIndex (getReg m (regXOf instr)) (getReg m (regYOf instr)) i j)
        rw [hset i hi j hj, hsval i hi]
      · intro k hk
        show d k = m.display k
        exact hun k hk
      · rw [hvf]
        show col = 1 ↔ ∃ k, m.display k = 1 ∧ d k = 0
        rw [hcol]
        constructor
        · rintro ⟨i, hi, j, hj, h1, h2⟩
          refine ⟨targetIndex (getReg m (regXOf instr)) (getReg m (regYOf instr)) i j,
            h1, ?_⟩
          rw [hset i hi j hj, h2, h1]
          decide
        · rintro ⟨k, hk1, hk0⟩
          by_cases htouch : ∃ i, i < nibbleOf instr ∧ ∃ j, j < 8 ∧
              targetIndex (getReg m (regXOf instr)) (getReg m (regYOf instr)) i j = k
          · obtain ⟨i, hi, j, hj, htgt⟩ := htouch
            subst htgt
            have hd1 := hset i hi j hj
            rw [hk1, hk0] at hd1
            exact ⟨i, hi, j, hj, hk1, Nat.xor_eq_zero.mp hd1.symm⟩
          · exfalso
            push_neg at htouch
            have hu := hun k fun i hi j hj => htouch i hi j hj
            rw [hu, hk1] at hk0
            exact absurd hk0 (by decide)
      · rw [hvf]
        exact hcol01

theorem c4_witness :
    execute c4m 0xD001 = .next (stateOf (execute c4m 0xD001)) ∧
    (stateOf (execute c4m 0xD001)).display
        (targetIndex (getReg c4m (regXOf 0xD001)) (getReg c4m (regYOf 0xD001)) 0 0)
      = spriteBit (c4m.ram (c4m.i + 0)) 0
          ^^^ c4m.display
            (targetIndex (getReg c4m (regXOf 0xD001)) (getReg c4m (regYOf 0xD001)) 0 0) ∧
    (getReg (stateOf (execute c4m 0xD001)) 15 = 0 ∨
      getReg (stateOf (execute c4m 0xD001)) 15 = 1) := by
  have h := c4_draw c4m 0xD001 (stateOf (execute c4m 0xD001)) rfl rfl rfl
  exact ⟨rfl, h.1 0 (by decide) 0 (by decide), h.2.2.2⟩

/-- The display of a draw result (first component), used to name the
intermediate display of a double draw in concrete witnesses. -/
def fstDraw (r : Option ((Nat → Nat) × Nat)) : Nat → Nat :=
  match r with
  | some p => p.1
  | none => fun _ => 0

/-- The collision flag of a draw result (second component). -/
def sndDraw (r : Option ((Nat → Nat) × Nat)) : Nat :=
  match r with
  | some p => p.2
  | none => 0

/-- Claim C7: for every display state, sprite, and coordinates, if a draw
completes then drawing the same sprite at the same coordinates again also
completes, restores every pixel to its value before the first draw, and
the second draw reports collision exactly when the first draw turned at
least one pixel on. -/
theorem c7_double_draw (x y : Nat) (sprite : List Nat) (d0 d1 : Nat → Nat) (c1 : Nat)
    (h : draw x y sprite d0 = some (d1, c1)) :
    (∀ k, (draw x y sprite d1).map (fun p => p.1 k) = some (d0 k)) ∧
    (((draw x y sprite d1).map Prod.snd = some 1) ↔ ∃ k, d0 k = 0 ∧ d1 k = 1) := by
  obtain ⟨d2, c2, hd2⟩ := draw_ok d1 (draw_bounds h)
  obtain ⟨hset1, hun1, hcol1, h01⟩ := draw_spec h
  obtain ⟨hset2, hun2, hcol2, h02⟩ := draw_spec hd2
  constructor
  · intro k
    rw [hd2, Option.map_some']
    congr 1
    show d2 k = d0 k
    by_cases htouch : ∃ i, i < sprite.length ∧ ∃ j, j < 8 ∧ targetIndex x y i j = k
    · obtain ⟨i, hi, j, hj, htgt⟩ := htouch
      subst htgt
      rw [hset2 i hi j hj, hset1 i hi j hj, Nat.xor_cancel_left]
    · push_neg at htouch
      rw [hun2 k fun i hi j hj => htouch i hi j hj,
        hun1 k fun i hi j hj => htouch i hi j hj]
  · rw [hd2, Option.map_some', Option.some.injEq]
    show c2 = 1 ↔ ∃ k, d0 k = 0 ∧ d1 k = 1
    rw [hcol2]
    constructor
    · rintro ⟨i, hi, j, hj, h1, h2⟩
      refine ⟨targetIndex x y i j, ?_, h1⟩
      have hd1k := hset1 i hi j hj
      rw [h2, h1] at hd1k
      have h3 : (1 : Nat) ^^^ 1 = 1 ^^^ (1 ^^^ d0 (targetIndex x y i j)) :=
        congrArg (fun z => 1 ^^^ z) hd1k
      rw [Nat.xor_cancel_left] at h3
      simpa using h3.symm
    · rintro ⟨k, hk0, hk1⟩
      by_cases htouch : ∃ i, i < sprite.length ∧ ∃ j, j < 8 ∧ targetIndex x y i j = k
      · obtain ⟨i, hi, j, hj, htgt⟩ := htouch
        subst htgt
        have hd1k := hset1 i hi j hj
        rw [hk0, Nat.xor_zero] at hd1k
        refine ⟨i, hi, j, hj, hk1, ?_⟩
        rw [← hd1k]
        exact hk1
      · exfalso
        push_neg at htouch
        have hu := hun1 k fun i hi j hj => htouch i hi j hj
        rw [hu, hk0] at hk1
        exact absurd hk1 (by decide)

theorem c7_witness :
    draw 0 0 [0x80] (fun _ => 0)
      = some (fstDraw (draw 0 0 [0x80] fun _ => 0),
          sndDraw (draw 0 0 [0x80] fun _ => 0)) ∧
    ((draw 0 0 [0x80] (fstDraw (draw 0 0 [0x80] fun _ => 0))).map
        (fun p => p.1 0)) = some 0 ∧
    (((draw 0 0 [0x80] (fstDraw (draw 0 0 [0x80] fun _ => 0))).map Prod.snd = some 1)
      ↔ ∃ k, (0 : Nat) = 0 ∧ fstDraw (draw 0 0 [0x80] fun _ => 0) k = 1) := by
  have h0 : draw 0 0 [0x80] (fun _ => 0)
      = some (fstDraw (draw 0 0 [0x80] fun _ => 0),
          sndDraw (draw 0 0 [0x80] fun _ => 0)) := rfl
  have h := c7_double_draw 0 0 [0x80] (fun _ => 0) _ _ h0
  exact ⟨h0, h.1 0, h.2⟩
